import Mathlib

/-!
Verification of the rate-limiting / caching / retry core of the
Telegram-Bot-Gemini repository.

The Python source under `src/` is embedded shallowly:

* timestamps produced by `time.time()` are rationals (`ℚ`);
* Python dicts (including `defaultdict(deque)`) are association lists
  `List (String × β)` with insertion-order update semantics;
* exceptions are explicit constructors of result types
  (`CheckOutcome`, `Except`, `Option`);
* mutation is explicit state passing: each method takes the object state
  and the current time `now` and returns the updated state.

Files embedded: `src/bot/utils/rate_limiter.py`, `src/bot/utils/cache.py`,
`src/services/mailsac.py`, `src/config/constants.py`.
-/

/-- Python `int()` applied to a rational: truncation toward zero. -/
def pyInt (x : ℚ) : ℤ := if 0 ≤ x then ⌊x⌋ else ⌈x⌉

/-- Dict lookup: first binding of the key, mirroring a Python dict
(`d[k]` / `d.get(k)`), where keys are unique. -/
def alGet {β : Type} : List (String × β) → String → Option β
  | [], _ => none
  | (k, v) :: ps, key => if k = key then some v else alGet ps key

/-- Dict write `d[k] = v`: replace the first binding of the key in place,
or append a fresh binding at the end (Python dicts keep insertion order). -/
def alSet {β : Type} : List (String × β) → String → β → List (String × β)
  | [], key, v => [(key, v)]
  | (k, w) :: ps, key, v =>
      if k = key then (k, v) :: ps else (k, w) :: alSet ps key v

/-- Dict removal `d.pop(k, None)`: drop the first binding of the key. -/
def alRemove {β : Type} : List (String × β) → String → List (String × β)
  | [], _ => []
  | (k, w) :: ps, key => if k = key then ps else (k, w) :: alRemove ps key

/-- The keys of a dict, in iteration order. -/
def alKeys {β : Type} (l : List (String × β)) : List String := l.map (·.1)

/-- Python `min(d.keys(), key=lambda k: d[k])`: the first binding whose
value is minimal (`min` keeps the earliest of tied items); `none` on an
empty dict (where Python raises `ValueError`). -/
def alArgmin : List (String × ℚ) → Option (String × ℚ)
  | [] => none
  | (k, v) :: ps =>
      match alArgmin ps with
      | none => some (k, v)
      | some (k₂, v₂) => if v ≤ v₂ then some (k, v) else some (k₂, v₂)

namespace APIConstants

/-- `APIConstants.MAX_REQUESTS_PER_MINUTE` from `src/config/constants.py`. -/
def MAX_REQUESTS_PER_MINUTE : ℕ := 60

/-- `APIConstants.MAX_RETRIES` from `src/config/constants.py`. -/
def MAX_RETRIES : ℕ := 3

/-- `APIConstants.RETRY_BACKOFF` from `src/config/constants.py`. -/
def RETRY_BACKOFF : ℕ := 2

/-- `APIConstants.CACHE_TTL_SECONDS` from `src/config/constants.py`. -/
def CACHE_TTL_SECONDS : ℕ := 300

/-- `APIConstants.MAX_CACHE_SIZE` from `src/config/constants.py`. -/
def MAX_CACHE_SIZE : ℕ := 1000

end APIConstants

namespace SecurityConstants

/-- `SecurityConstants.USER_RATE_LIMIT` from `src/config/constants.py`. -/
def USER_RATE_LIMIT : ℕ := 30

/-- `SecurityConstants.GLOBAL_RATE_LIMIT` from `src/config/constants.py`. -/
def GLOBAL_RATE_LIMIT : ℕ := 1000

end SecurityConstants

/-- State of `TokenBucket` (`rate_limiter.py`): `capacity`, `refill_rate`,
current `tokens` and the `last_refill` timestamp. -/
structure TokenBucket where
  capacity : ℚ
  refill_rate : ℚ
  tokens : ℚ
  last_refill : ℚ
deriving DecidableEq

/-- `TokenBucket.__init__(capacity, refill_rate)`: starts full, with
`last_refill` set to the creation time. -/
def TokenBucket.make (capacity refill_rate now : ℚ) : TokenBucket :=
  { capacity := capacity, refill_rate := refill_rate,
    tokens := capacity, last_refill := now }

/-- `TokenBucket._refill`: add `elapsed * refill_rate` tokens, capped at
`capacity`, and stamp `last_refill = now`. -/
def TokenBucket.refill (b : TokenBucket) (now : ℚ) : TokenBucket :=
  { b with tokens := min b.capacity (b.tokens + (now - b.last_refill) * b.refill_rate),
           last_refill := now }

/-- `TokenBucket.consume(tokens)`: refill, then consume if enough tokens
are available; returns whether consumption happened plus the new state. -/
def TokenBucket.consume (b : TokenBucket) (now : ℚ) (tokens : ℚ) : Bool × TokenBucket :=
  let b := b.refill now
  if tokens ≤ b.tokens then (true, { b with tokens := b.tokens - tokens })
  else (false, b)

/-- `TokenBucket.time_until_available(tokens)`: refill, then the time until
the requested tokens are available (`0` if already available). -/
def TokenBucket.time_until_available (b : TokenBucket) (now : ℚ) (tokens : ℚ) :
    ℚ × TokenBucket :=
  let b := b.refill now
  if tokens ≤ b.tokens then (0, b)
  else ((tokens - b.tokens) / b.refill_rate, b)

/-- State of `SlidingWindowRateLimiter` (`rate_limiter.py`): the parameters
and the `requests` defaultdict of per-key timestamp deques. -/
structure SlidingWindowRateLimiter where
  max_requests : ℕ
  window_seconds : ℚ
  requests : List (String × List ℚ)
deriving DecidableEq

/-- The `while request_times and request_times[0] < window_start: popleft()`
loop: trim the chronological prefix of timestamps older than the window. -/
def pruneWindow (window_start : ℚ) : List ℚ → List ℚ
  | [] => []
  | t :: ts => if t < window_start then pruneWindow window_start ts else t :: ts

/-- `self.requests[key]` on the defaultdict, as a read: missing keys read
as the empty deque. -/
def SlidingWindowRateLimiter.getQueue (l : SlidingWindowRateLimiter) (key : String) :
    List ℚ :=
  (alGet l.requests key).getD []

/-- The per-queue core of `is_allowed`: prune old timestamps, then append
`now` and allow iff the pruned queue is under `max_requests`. -/
def queueStep (max_requests : ℕ) (window_seconds now : ℚ) (q : List ℚ) :
    Bool × List ℚ :=
  let q := pruneWindow (now - window_seconds) q
  if q.length < max_requests then (true, q ++ [now]) else (false, q)

/-- `SlidingWindowRateLimiter.is_allowed(key)` at time `now`: the queue for
`key` is pruned (and stored back, since the deque is mutated in place) and
`now` is appended when the request is allowed. -/
def SlidingWindowRateLimiter.is_allowed (l : SlidingWindowRateLimiter)
    (now : ℚ) (key : String) : Bool × SlidingWindowRateLimiter :=
  let r := queueStep l.max_requests l.window_seconds now (l.getQueue key)
  (r.1, { l with requests := alSet l.requests key r.2 })

/-- `SlidingWindowRateLimiter.get_reset_time(key)`: oldest retained
timestamp plus the window length, or `0` for an empty queue. -/
def SlidingWindowRateLimiter.get_reset_time (l : SlidingWindowRateLimiter)
    (key : String) : ℚ :=
  match l.getQueue key with
  | [] => 0
  | t :: _ => t + l.window_seconds

/-- A sequence of `is_allowed` calls on one key at the given times,
threading the limiter state; returns the results and the final state. -/
def runCalls (l : SlidingWindowRateLimiter) (key : String) :
    List ℚ → List Bool × SlidingWindowRateLimiter
  | [] => ([], l)
  | t :: ts =>
      let r := l.is_allowed t key
      let rest := runCalls r.2 key ts
      (r.1 :: rest.1, rest.2)

/-- The same sequence of calls, tracked at the level of one key's queue. -/
def queueRun (max_requests : ℕ) (window_seconds : ℚ) (q : List ℚ) :
    List ℚ → List Bool × List ℚ
  | [] => ([], q)
  | t :: ts =>
      let r := queueStep max_requests window_seconds t q
      let rest := queueRun max_requests window_seconds r.2 ts
      (r.1 :: rest.1, rest.2)

/-- State of the composite `RateLimiter` (`rate_limiter.py`): the three
sliding-window limiters plus the per-user token-bucket dict. -/
structure RateLimiter where
  user_limiter : SlidingWindowRateLimiter
  global_limiter : SlidingWindowRateLimiter
  api_limiter : SlidingWindowRateLimiter
  user_buckets : List (String × TokenBucket)
deriving DecidableEq

/-- `RateLimiter.__init__`: user window `USER_RATE_LIMIT`/60s, global
window `GLOBAL_RATE_LIMIT`/60s, api window `MAX_REQUESTS_PER_MINUTE`/60s,
no buckets. -/
def RateLimiter.init : RateLimiter :=
  { user_limiter := ⟨SecurityConstants.USER_RATE_LIMIT, 60, []⟩,
    global_limiter := ⟨SecurityConstants.GLOBAL_RATE_LIMIT, 60, []⟩,
    api_limiter := ⟨APIConstants.MAX_REQUESTS_PER_MINUTE, 60, []⟩,
    user_buckets := [] }

/-- `RateLimiter._get_user_bucket(user_id)`: the stored bucket, or a fresh
`TokenBucket(capacity=10, refill_rate=0.5)` created at the current time. -/
def RateLimiter.get_user_bucket (rl : RateLimiter) (now : ℚ) (user_id : String) :
    TokenBucket :=
  match alGet rl.user_buckets user_id with
  | some b => b
  | none => TokenBucket.make 10 (1/2) now

/-- Outcome of one composite rate-limit check: normal return, a raised
`RateLimitError(limit_type, retry_after)`, or any other raised exception.
Each outcome carries the limiter state at the moment control leaves the
check (Python mutations performed before a raise persist). -/
inductive CheckOutcome where
  | passed (st : RateLimiter)
  | limited (limit_type : String) (retry_after : ℤ) (st : RateLimiter)
  | fault (msg : String) (st : RateLimiter)
deriving DecidableEq

/-- The limiter state carried by an outcome. -/
def CheckOutcome.state : CheckOutcome → RateLimiter
  | .passed st => st
  | .limited _ _ st => st
  | .fault _ st => st

/-- The `limit_type` of a raised `RateLimitError`, if the outcome is one. -/
def CheckOutcome.tag : CheckOutcome → Option String
  | .passed _ => none
  | .limited t _ _ => some t
  | .fault _ _ => none

/-- `RateLimiter.check_user_rate_limit(user_id)` at time `now`: sliding
window first (raising `RateLimitError("user", ...)` on rejection), then the
per-user token bucket (raising `RateLimitError("burst", ...)`). -/
def RateLimiter.check_user_rate_limit (rl : RateLimiter) (now : ℚ)
    (user_id : String) : CheckOutcome :=
  let user_key := "user:" ++ user_id
  let r := rl.user_limiter.is_allowed now user_key
  let rl1 := { rl with user_limiter := r.2 }
  if r.1 then
    let bucket := rl1.get_user_bucket now user_id
    let rl2 := { rl1 with user_buckets := alSet rl1.user_buckets user_id bucket }
    let c := bucket.consume now 1
    let rl3 := { rl2 with user_buckets := alSet rl2.user_buckets user_id c.2 }
    if c.1 then .passed rl3
    else
      let ta := c.2.time_until_available now 1
      let rl4 := { rl3 with user_buckets := alSet rl3.user_buckets user_id ta.2 }
      .limited "burst" (pyInt ta.1) rl4
  else
    let reset_time := rl1.user_limiter.get_reset_time user_key
    .limited "user" (pyInt (reset_time - now)) rl1

/-- `RateLimiter.check_global_rate_limit()` at time `now`. -/
def RateLimiter.check_global_rate_limit (rl : RateLimiter) (now : ℚ) : CheckOutcome :=
  let r := rl.global_limiter.is_allowed now "global"
  let rl1 := { rl with global_limiter := r.2 }
  if r.1 then .passed rl1
  else
    let reset_time := rl1.global_limiter.get_reset_time "global"
    .limited "global" (pyInt (reset_time - now)) rl1

/-- `RateLimiter.check_api_rate_limit(service)` at time `now`. -/
def RateLimiter.check_api_rate_limit (rl : RateLimiter) (now : ℚ)
    (service : String) : CheckOutcome :=
  let api_key := "api:" ++ service
  let r := rl.api_limiter.is_allowed now api_key
  let rl1 := { rl with api_limiter := r.2 }
  if r.1 then .passed rl1
  else
    let reset_time := rl1.api_limiter.get_reset_time api_key
    .limited ("api:" ++ service) (pyInt (reset_time - now)) rl1

/-- The `try` body of `check_rate_limits(user_id, service)`: global check,
then user check, then the api check when a (truthy) service is supplied;
any raise propagates immediately, skipping the later layers. -/
def checkRateLimitsBody (rl : RateLimiter) (now : ℚ) (user_id : String)
    (service : Option String) : CheckOutcome :=
  match rl.check_global_rate_limit now with
  | .passed rl1 =>
      match rl1.check_user_rate_limit now user_id with
      | .passed rl2 =>
          match service with
          | none => .passed rl2
          | some s => if s = "" then .passed rl2 else rl2.check_api_rate_limit now s
      | o => o
  | o => o

/-- The `except` clauses of `check_rate_limits`: a `RateLimitError` is
re-raised; any other exception is logged and swallowed, so the function
returns normally and the request is allowed through. -/
def rateLimitHandler (o : CheckOutcome) : CheckOutcome :=
  match o with
  | .passed st => .passed st
  | .limited t r st => .limited t r st
  | .fault _ st => .passed st

/-- Module-level `check_rate_limits(user_id, service=None)` at time `now`. -/
def check_rate_limits (rl : RateLimiter) (now : ℚ) (user_id : String)
    (service : Option String) : CheckOutcome :=
  rateLimitHandler (checkRateLimitsBody rl now user_id service)

/-- Repeated calls of `check_user_rate_limit(user_id)` at the given times,
threading the limiter state through each outcome (the state mutated before
a raise persists into the next call). -/
def runUserCalls (rl : RateLimiter) (user_id : String) :
    List ℚ → List CheckOutcome
  | [] => []
  | t :: ts =>
      let o := rl.check_user_rate_limit t user_id
      o :: runUserCalls o.state user_id ts

/-- State of `MemoryCache` (`cache.py`): `max_size`, the `cache` dict
`key -> (value, expiry_time)` and the `_access_times` dict used for LRU. -/
structure MemoryCache (α : Type) where
  max_size : ℕ
  cache : List (String × α × ℚ)
  access_times : List (String × ℚ)
deriving DecidableEq

/-- Well-formedness of the dicts of a `MemoryCache`, as Python maintains it:
unique keys, and `cache` and `_access_times` hold the same key set. -/
def MemoryCache.WF {α : Type} (c : MemoryCache α) : Prop :=
  (alKeys c.cache).Nodup ∧ (alKeys c.access_times).Nodup ∧
    (∀ k ∈ alKeys c.cache, k ∈ alKeys c.access_times) ∧
    (∀ k ∈ alKeys c.access_times, k ∈ alKeys c.cache)

instance {α : Type} (c : MemoryCache α) : Decidable c.WF := by
  unfold MemoryCache.WF; infer_instance

/-- `MemoryCache._evict_expired()` at time `now`: collect the keys whose
expiry has passed (`now > expiry`), then pop each from both dicts. -/
def MemoryCache.evict_expired {α : Type} (c : MemoryCache α) (now : ℚ) :
    MemoryCache α :=
  let expired_keys := (c.cache.filter (fun p => decide (p.2.2 < now))).map (·.1)
  { c with cache := c.cache.filter (fun p => decide (¬ p.2.2 < now)),
           access_times := c.access_times.filter
             (fun p => ¬ expired_keys.contains p.1) }

/-- The `while len(cache) >= max_size` loop of `MemoryCache._evict_lru()`,
with explicit fuel. Each pass removes the key with the least access time.
`none` models the loop not returning normally: `min` of an empty
`_access_times` raises `ValueError`, and fuel exhaustion (impossible on
well-formed states, where every pass shrinks the cache) models the loop
spinning without progress. -/
def MemoryCache.evict_lru_fuel {α : Type} :
    ℕ → MemoryCache α → Option (MemoryCache α)
  | 0, _ => none
  | fuel + 1, c =>
      if c.max_size ≤ c.cache.length then
        match alArgmin c.access_times with
        | none => none
        | some (lru_key, _) =>
            MemoryCache.evict_lru_fuel fuel
              { c with cache := alRemove c.cache lru_key,
                       access_times := alRemove c.access_times lru_key }
      else some c

/-- `MemoryCache.set(key, value, ttl)` at time `now`: sweep expired
entries, run LRU eviction, then store `(value, now + ttl)` and the access
time. `none` means the call raised (`ValueError` out of `_evict_lru`). -/
def MemoryCache.set {α : Type} (c : MemoryCache α) (now : ℚ) (key : String)
    (value : α) (ttl : ℚ) : Option (MemoryCache α) :=
  let c1 := c.evict_expired now
  match MemoryCache.evict_lru_fuel (c1.cache.length + 1) c1 with
  | none => none
  | some c2 =>
      some { c2 with cache := alSet c2.cache key (value, now + ttl),
                     access_times := alSet c2.access_times key now }

/-- `MemoryCache.get(key)` at time `now`: `None` on a missing key; an
expired entry is popped from both dicts and reads as `None`; a live entry
refreshes its access time and returns the value. -/
def MemoryCache.get {α : Type} (c : MemoryCache α) (now : ℚ) (key : String) :
    Option α × MemoryCache α :=
  match alGet c.cache key with
  | none => (none, c)
  | some (v, expiry_time) =>
      if expiry_time < now then
        (none, { c with cache := alRemove c.cache key,
                        access_times := alRemove c.access_times key })
      else
        (some v, { c with access_times := alSet c.access_times key now })

/-- The members of the `ErrorCode` enum (`src/config/exceptions.py`) used
by the mailsac service. -/
inductive ErrorCode where
  | API_CONNECTION_ERROR
  | API_TIMEOUT_ERROR
  | API_RATE_LIMIT_ERROR
  | API_UNAUTHORIZED_ERROR
  | API_SERVER_ERROR
  | EMAIL_FETCH_FAILED
deriving DecidableEq

/-- One scripted observation of an outbound HTTP attempt in
`MailsacService._make_request`: a response with a status code and body
text, a request timeout, or a transport-level client error. -/
inductive HttpEvent where
  | response (status : ℕ) (body : String)
  | timeout
  | connectionError (msg : String)
deriving DecidableEq

/-- Terminal result of `_make_request`: a decoded 200 body, the empty
result for 404, or a raised `APIError` with its `error_code` and status.
`noEvent` is a model artifact for running out of scripted events. -/
inductive MRResult where
  | success (body : String)
  | notFound
  | failure (error_code : ErrorCode) (status : Option ℕ)
  | noEvent
deriving DecidableEq

/-- `MailsacService._make_request` driven by a script of events, returning
the terminal result, the total number of attempts, and the list of backoff
sleeps (in seconds) performed before each retry, in order. Mirrors the
status dispatch: 200, 404, 401, 429, `>= 500`, other; 429, 5xx and
timeouts retry while `retry_count < MAX_RETRIES` after sleeping
`RETRY_BACKOFF ** retry_count`. -/
def make_request (retry_count : ℕ) : List HttpEvent → MRResult × ℕ × List ℕ
  | [] => (.noEvent, 0, [])
  | e :: es =>
      match e with
      | .response s body =>
          if s = 200 then (.success body, 1, [])
          else if s = 404 then (.notFound, 1, [])
          else if s = 401 then (.failure .API_UNAUTHORIZED_ERROR (some s), 1, [])
          else if s = 429 then
            if retry_count < APIConstants.MAX_RETRIES then
              let r := make_request (retry_count + 1) es
              (r.1, r.2.1 + 1, APIConstants.RETRY_BACKOFF ^ retry_count :: r.2.2)
            else (.failure .API_RATE_LIMIT_ERROR (some s), 1, [])
          else if 500 ≤ s then
            if retry_count < APIConstants.MAX_RETRIES then
              let r := make_request (retry_count + 1) es
              (r.1, r.2.1 + 1, APIConstants.RETRY_BACKOFF ^ retry_count :: r.2.2)
            else (.failure .API_SERVER_ERROR (some s), 1, [])
          else (.failure .API_CONNECTION_ERROR (some s), 1, [])
      | .timeout =>
          if retry_count < APIConstants.MAX_RETRIES then
            let r := make_request (retry_count + 1) es
            (r.1, r.2.1 + 1, APIConstants.RETRY_BACKOFF ^ retry_count :: r.2.2)
          else (.failure .API_TIMEOUT_ERROR none, 1, [])
      | .connectionError _ => (.failure .API_CONNECTION_ERROR none, 1, [])

/-- The `EmailMessage` pydantic model of `mailsac.py` (attachments, always
defaulted in this code path, are omitted). -/
structure EmailMessage where
  id : String
  from_address : String
  to_address : String
  subject : String
  received : ℚ
  body : Option String
deriving DecidableEq

/-- One raw message record from the mailsac list endpoint, with the fields
`get_messages` reads; `none` models a missing dict key. The `from` field
is a list of sender dicts, each with an optional `address`. -/
structure RawMsg where
  mid : Option String
  from_field : Option (List (Option String))
  subject : Option String
  received : Option String
deriving DecidableEq

/-- `msg_data.get('from', [{}])[0].get('address', '')`: the default
`[{}]` yields `''`; an explicit empty list raises an uncaught
`IndexError`. -/
def fromAddressOf (m : RawMsg) : Except String String :=
  match m.from_field with
  | none => .ok ""
  | some [] => .error "IndexError"
  | some (f :: _) => .ok (f.getD "")

/-- Parsing of one record in the `get_messages` loop, parameterized by
`parse_date`, which models the composite
`datetime.fromisoformat(received.replace('Z', '+00:00'))` applied to the
raw `received` string; `none` means that call raises `ValueError`.
`.ok none` is the `except (ValidationError, ValueError)` path that logs
and skips the record; `.error` is an uncaught exception escaping the
loop. -/
def parse_message (parse_date : String → Option ℚ) (email_address : String)
    (m : RawMsg) : Except String (Option EmailMessage) :=
  match fromAddressOf m with
  | .error e => .error e
  | .ok fa =>
      match parse_date (m.received.getD "") with
      | none => .ok none
      | some d =>
          .ok (some { id := m.mid.getD "", from_address := fa,
                      to_address := email_address,
                      subject := m.subject.getD "No Subject",
                      received := d, body := none })

/-- The `for msg_data in response` loop of `get_messages`: well-formed
records are collected in order, records whose parse raises
`ValidationError`/`ValueError` are skipped, and any other exception
aborts the whole loop. -/
def parse_messages (parse_date : String → Option ℚ) (email_address : String) :
    List RawMsg → Except String (List EmailMessage)
  | [] => .ok []
  | r :: rs =>
      match parse_message parse_date email_address r with
      | .error e => .error e
      | .ok none => parse_messages parse_date email_address rs
      | .ok (some msg) =>
          match parse_messages parse_date email_address rs with
          | .error e => .error e
          | .ok msgs => .ok (msg :: msgs)

/-- Result of `get_messages` as seen by its caller: the parsed list, or an
`EmailError` when the outer `except Exception` wraps an escaped
exception. -/
inductive FetchResult where
  | messages (msgs : List EmailMessage)
  | fetchError (error_code : ErrorCode)
deriving DecidableEq

/-- The parse-and-collect phase of `MailsacService.get_messages` applied to
a fetched response list: an exception escaping the record loop is caught
by the outer handler and re-raised as `EmailError(EMAIL_FETCH_FAILED)`,
failing the whole fetch. -/
def get_messages_parse (parse_date : String → Option ℚ) (email_address : String)
    (response : List RawMsg) : FetchResult :=
  match parse_messages parse_date email_address response with
  | .ok msgs => .messages msgs
  | .error _ => .fetchError .EMAIL_FETCH_FAILED

/-- The limiter state reached after `k` spaced calls of
`check_user_rate_limit("42")` at times `u 0, ..., u (k-1)` from
`RateLimiter.init`, when every call so far was allowed and each gap of at
least 2 seconds refilled the bucket back to capacity before consuming:
the user window holds the `k` call times and the bucket holds 9 tokens
stamped at the last call. -/
def userCallState (u : ℕ → ℚ) (k : ℕ) : RateLimiter :=
  ⟨⟨30, 60, [("user:" ++ "42", (List.range k).map u)]⟩, ⟨1000, 60, []⟩,
    ⟨60, 60, []⟩, [("42", ⟨10, 1/2, 9, u (k - 1)⟩)]⟩

/-! ## Association-list lemmas -/

theorem alGet_alSet_self {β : Type} (l : List (String × β)) (k : String) (v : β) :
    alGet (alSet l k v) k = some v := by
  induction l with
  | nil => simp [alSet, alGet]
  | cons p ps ih =>
      obtain ⟨a, b⟩ := p
      by_cases h : a = k
      · simp [alSet, alGet, h]
      · simp [alSet, alGet, h, ih]

/-! ## Sliding-window lemmas -/

theorem pruneWindow_eq_self (w : ℚ) (q : List ℚ) (h : ∀ x ∈ q, ¬ x < w) :
    pruneWindow w q = q := by
  cases q with
  | nil => rfl
  | cons t ts => simp [pruneWindow, h t (by simp)]

theorem queueStep_allowed {mr : ℕ} {ws now : ℚ} {q : List ℚ}
    (h : (pruneWindow (now - ws) q).length < mr) :
    queueStep mr ws now q = (true, pruneWindow (now - ws) q ++ [now]) := by
  simp [queueStep, h]

theorem queueStep_denied {mr : ℕ} {ws now : ℚ} {q : List ℚ}
    (h : ¬ (pruneWindow (now - ws) q).length < mr) :
    queueStep mr ws now q = (false, pruneWindow (now - ws) q) := by
  simp [queueStep, h]

theorem queueRun_cons (mr : ℕ) (ws : ℚ) (q : List ℚ) (t : ℚ) (ts : List ℚ) :
    queueRun mr ws q (t :: ts) =
      ((queueStep mr ws t q).1 :: (queueRun mr ws (queueStep mr ws t q).2 ts).1,
       (queueRun mr ws (queueStep mr ws t q).2 ts).2) := rfl

theorem queueRun_count_le (mr : ℕ) (ws t0 : ℚ) :
    ∀ (times q : List ℚ), (∀ x ∈ q, t0 ≤ x) →
      (∀ t ∈ times, t0 ≤ t ∧ t < t0 + ws) →
      (queueRun mr ws q times).1.count true ≤ mr - q.length := by
  intro times
  induction times with
  | nil => intro q hq ht; simp [queueRun]
  | cons t ts ih =>
      intro q hq ht
      obtain ⟨ht0, htw⟩ := ht t (by simp)
      have hprune : pruneWindow (t - ws) q = q := by
        refine pruneWindow_eq_self _ _ (fun x hx => ?_)
        have := hq x hx
        linarith
      rw [queueRun_cons]
      by_cases hlt : q.length < mr
      · rw [queueStep_allowed (by rw [hprune]; exact hlt), hprune]
        have hrest := ih (q ++ [t])
          (by
            intro x hx
            rcases List.mem_append.mp hx with h | h
            · exact hq x h
            · simp at h; subst h; exact ht0)
          (fun u hu => ht u (by simp [hu]))
        simp [List.count_cons] at hrest ⊢
        omega
      · rw [queueStep_denied (by rw [hprune]; exact hlt), hprune]
        have hrest := ih q hq (fun u hu => ht u (by simp [hu]))
        simp [List.count_cons] at hrest ⊢
        omega

theorem queueRun_all_true (mr : ℕ) (ws t0 : ℚ) :
    ∀ (times q : List ℚ), (∀ x ∈ q, t0 ≤ x) →
      (∀ t ∈ times, t0 ≤ t ∧ t < t0 + ws) →
      q.length + times.length ≤ mr →
      queueRun mr ws q times = (List.replicate times.length true, q ++ times) := by
  intro times
  induction times with
  | nil => intro q hq ht hlen; simp [queueRun]
  | cons t ts ih =>
      intro q hq ht hlen
      obtain ⟨ht0, htw⟩ := ht t (by simp)
      have hprune : pruneWindow (t - ws) q = q := by
        refine pruneWindow_eq_self _ _ (fun x hx => ?_)
        have := hq x hx
        linarith
      rw [queueRun_cons]
      rw [queueStep_allowed (by rw [hprune]; simp at hlen ⊢; omega)]
      rw [hprune]
      have hrest := ih (q ++ [t])
        (by
          intro x hx
          rcases List.mem_append.mp hx with h | h
          · exact hq x h
          · simp at h; subst h; exact ht0)
        (fun u hu => ht u (by simp [hu]))
        (by simp at hlen ⊢; omega)
      rw [hrest]
      simp [List.replicate_succ]

theorem runCalls_spec (key : String) :
    ∀ (ts : List ℚ) (l : SlidingWindowRateLimiter),
      (runCalls l key ts).1 =
        (queueRun l.max_requests l.window_seconds (l.getQueue key) ts).1 ∧
      (runCalls l key ts).2.getQueue key =
        (queueRun l.max_requests l.window_seconds (l.getQueue key) ts).2 ∧
      (runCalls l key ts).2.max_requests = l.max_requests ∧
      (runCalls l key ts).2.window_seconds = l.window_seconds := by
  intro ts
  induction ts with
  | nil => intro l; exact ⟨rfl, rfl, rfl, rfl⟩
  | cons t ts ih =>
      intro l
      have hstep : ((l.is_allowed t key).2).getQueue key =
          (queueStep l.max_requests l.window_seconds t (l.getQueue key)).2 := by
        simp [SlidingWindowRateLimiter.is_allowed, SlidingWindowRateLimiter.getQueue,
          alGet_alSet_self]
      have hmr : ((l.is_allowed t key).2).max_requests = l.max_requests := rfl
      have hws : ((l.is_allowed t key).2).window_seconds = l.window_seconds := rfl
      have hres : (l.is_allowed t key).1 =
          (queueStep l.max_requests l.window_seconds t (l.getQueue key)).1 := rfl
      obtain ⟨ih1, ih2, ih3, ih4⟩ := ih ((l.is_allowed t key).2)
      refine ⟨?_, ?_, ?_, ?_⟩
      · show (l.is_allowed t key).1 :: (runCalls (l.is_allowed t key).2 key ts).1 = _
        rw [queueRun_cons, hres, ih1, hstep, hmr, hws]
      · show (runCalls (l.is_allowed t key).2 key ts).2.getQueue key = _
        rw [queueRun_cons, ih2, hstep, hmr, hws]
      · exact (hmr ▸ ih3 : _)
      · exact (hws ▸ ih4 : _)

theorem queueRun_append (mr : ℕ) (ws : ℚ) :
    ∀ (ts us q : List ℚ),
      queueRun mr ws q (ts ++ us) =
        ((queueRun mr ws q ts).1 ++ (queueRun mr ws (queueRun mr ws q ts).2 us).1,
         (queueRun mr ws (queueRun mr ws q ts).2 us).2) := by
  intro ts
  induction ts with
  | nil => intro us q; simp [queueRun]
  | cons t ts ih =>
      intro us q
      rw [List.cons_append, queueRun_cons, queueRun_cons, ih]
      rfl

/-- C1: for a `SlidingWindowRateLimiter`, over any sequence of `is_allowed(k)`
calls at times inside one interval shorter than `window_seconds` and starting
from an empty queue for `k`, at most `max_requests` calls return true; when
there are exactly `max_requests + 1` such calls, the last returns false and
appends no timestamp (the stored queue stays the first `max_requests` call
times); and on an empty queue the first call returns true — the last part
amended with the hypothesis `1 ≤ max_requests`, since a limiter constructed
with `max_requests = 0` denies the first call as well. -/
theorem C1_sliding_window_bound (l : SlidingWindowRateLimiter) (key : String)
    (t0 : ℚ) (times : List ℚ) (hq : l.getQueue key = [])
    (ht : ∀ t ∈ times, t0 ≤ t ∧ t < t0 + l.window_seconds) :
    (runCalls l key times).1.count true ≤ l.max_requests ∧
    (times.length = l.max_requests + 1 →
      (runCalls l key times).1 = List.replicate l.max_requests true ++ [false] ∧
      (runCalls l key times).2.getQueue key = times.dropLast) ∧
    (1 ≤ l.max_requests → ∀ now, (l.is_allowed now key).1 = true) := by
  obtain ⟨hres, hqueue, -, -⟩ := runCalls_spec key times l
  refine ⟨?_, ?_, ?_⟩
  · rw [hres, hq]
    have h := queueRun_count_le l.max_requests l.window_seconds t0 times []
      (by simp) ht
    simpa using h
  · intro hlen
    have hne : times ≠ [] := by
      intro h
      rw [h] at hlen
      simp at hlen
    have hsplit : times.dropLast ++ [times.getLast hne] = times :=
      List.dropLast_append_getLast hne
    have hdl : ∀ x ∈ times.dropLast, t0 ≤ x ∧ x < t0 + l.window_seconds :=
      fun x hx => ht x (List.dropLast_sublist times |>.subset hx)
    have hlast := ht (times.getLast hne) (List.getLast_mem hne)
    have hdllen : times.dropLast.length = l.max_requests := by
      have := times.length_dropLast
      omega
    have hfirst : queueRun l.max_requests l.window_seconds [] times.dropLast =
        (List.replicate l.max_requests true, times.dropLast) := by
      have h := queueRun_all_true l.max_requests l.window_seconds t0
        times.dropLast [] (by simp) hdl (by simp [hdllen])
      simpa [hdllen] using h
    have hprune : pruneWindow (times.getLast hne - l.window_seconds)
        times.dropLast = times.dropLast := by
      refine pruneWindow_eq_self _ _ (fun x hx => ?_)
      have h1 := (hdl x hx).1
      have h2 := hlast.2
      linarith
    have hstep : queueStep l.max_requests l.window_seconds
        (times.getLast hne) times.dropLast = (false, times.dropLast) := by
      rw [queueStep_denied (by rw [hprune, hdllen]; omega), hprune]
    have hqr : queueRun l.max_requests l.window_seconds [] times =
        (List.replicate l.max_requests true ++ [false], times.dropLast) := by
      conv_lhs => rw [← hsplit]
      rw [queueRun_append, hfirst]
      simp [queueRun, queueRun_cons, hstep]
    constructor
    · rw [hres, hq, hqr]
    · rw [hqueue, hq, hqr]
  · intro h1 now
    have : (0 : ℕ) < l.max_requests := h1
    simp [SlidingWindowRateLimiter.is_allowed, hq, queueStep, pruneWindow, this]

/-- C1 counterexample: the claim quantifies over every `max_requests` and
asserts that on a just-created key the first call always returns true; with
`max_requests = 0` the first `is_allowed` call on an empty queue returns
false. -/
theorem C1_counterexample :
    (SlidingWindowRateLimiter.is_allowed ⟨0, 60, []⟩ 0 "k").1 = false := by
  decide

/-- C1 witness: the amended theorem applied to a limiter with
`max_requests = 2`, `window_seconds = 60` and calls at times 0, 1, 2. -/
theorem C1_witness :
    (runCalls ⟨2, 60, []⟩ "k" [0, 1, 2]).1 = [true, true, false] ∧
    (runCalls ⟨2, 60, []⟩ "k" [0, 1, 2]).2.getQueue "k" = [0, 1] ∧
    (SlidingWindowRateLimiter.is_allowed ⟨2, 60, []⟩ 5 "k").1 = true := by
  have h := C1_sliding_window_bound ⟨2, 60, []⟩ "k" 0 [0, 1, 2] (by rfl)
    (by norm_num)
  obtain ⟨h2, h3⟩ := h.2.1 (by rfl)
  refine ⟨by rw [h2]; rfl, by rw [h3]; rfl, h.2.2 (by decide) 5⟩

/-! ## Retry layer (`MailsacService._make_request`) -/

/-- C4: with `MAX_RETRIES = 3` and backoff base `RETRY_BACKOFF = 2`,
responses `[500, 500, 200]` give 3 attempts (2 retries) ending in success,
responses `[500, 500, 500, 500]` give 4 attempts (3 retries) ending in an
`API_SERVER_ERROR` failure, and in general a 5xx response at retry counter
`rc < MAX_RETRIES` sleeps exactly `RETRY_BACKOFF ^ rc` seconds before the
retry (so the scripted sleeps above are `[1, 2]` and `[1, 2, 4]`). -/
theorem C4_retry_policy (b1 b2 b3 b4 : String) :
    make_request 0 [.response 500 b1, .response 500 b2, .response 200 b3] =
      (.success b3, 3, [1, 2]) ∧
    make_request 0
        [.response 500 b1, .response 500 b2, .response 500 b3, .response 500 b4] =
      (.failure .API_SERVER_ERROR (some 500), 4, [1, 2, 4]) ∧
    (∀ (rc s : ℕ) (b : String) (evs : List HttpEvent), 500 ≤ s →
      rc < APIConstants.MAX_RETRIES →
      make_request rc (.response s b :: evs) =
        ((make_request (rc + 1) evs).1, (make_request (rc + 1) evs).2.1 + 1,
         APIConstants.RETRY_BACKOFF ^ rc :: (make_request (rc + 1) evs).2.2)) := by
  refine ⟨rfl, rfl, ?_⟩
  intro rc s b evs h500 hrc
  have h200 : ¬ s = 200 := by omega
  have h404 : ¬ s = 404 := by omega
  have h401 : ¬ s = 401 := by omega
  have h429 : ¬ s = 429 := by omega
  simp [make_request, h200, h404, h401, h429, h500, hrc]

/-- C4 witness: the general 5xx clause applied at retry counter 1 and
status 500, with the backoff sleep `2 ^ 1`. -/
theorem C4_retry_policy_witness :
    make_request 1 [.response 500 "", .response 200 "ok"] =
      ((make_request 2 [.response 200 "ok"]).1,
       (make_request 2 [.response 200 "ok"]).2.1 + 1,
       APIConstants.RETRY_BACKOFF ^ 1 :: (make_request 2 [.response 200 "ok"]).2.2) :=
  (C4_retry_policy "" "" "" "").2.2 1 500 "" [.response 200 "ok"]
    (by decide) (by decide)

/-- C8: a request timeout is retried with the same policy as 429/5xx
responses — while `retry_count < MAX_RETRIES` the call sleeps
`RETRY_BACKOFF ^ retry_count` and re-issues; once retries are exhausted it
terminates with an `API_TIMEOUT_ERROR` failure, as the concrete
four-timeout script (4 attempts, sleeps `[1, 2, 4]`) shows end to end. -/
theorem C8_timeout_retry :
    (∀ (rc : ℕ) (evs : List HttpEvent), rc < APIConstants.MAX_RETRIES →
      make_request rc (.timeout :: evs) =
        ((make_request (rc + 1) evs).1, (make_request (rc + 1) evs).2.1 + 1,
         APIConstants.RETRY_BACKOFF ^ rc :: (make_request (rc + 1) evs).2.2)) ∧
    (∀ (rc : ℕ) (evs : List HttpEvent), APIConstants.MAX_RETRIES ≤ rc →
      make_request rc (.timeout :: evs) = (.failure .API_TIMEOUT_ERROR none, 1, [])) ∧
    make_request 0 [.timeout, .timeout, .timeout, .timeout] =
      (.failure .API_TIMEOUT_ERROR none, 4, [1, 2, 4]) := by
  refine ⟨?_, ?_, rfl⟩
  · intro rc evs hrc
    simp [make_request, hrc]
  · intro rc evs hrc
    simp [make_request, Nat.not_lt.mpr hrc]

/-- C8 witness: the retry clause applied at counter 0, and the exhaustion
clause applied at counter 3. -/
theorem C8_timeout_retry_witness :
    make_request 0 [.timeout, .response 200 "ok"] =
      ((make_request 1 [.response 200 "ok"]).1,
       (make_request 1 [.response 200 "ok"]).2.1 + 1,
       APIConstants.RETRY_BACKOFF ^ 0 :: (make_request 1 [.response 200 "ok"]).2.2) ∧
    make_request 3 [.timeout] = (.failure .API_TIMEOUT_ERROR none, 1, []) :=
  ⟨C8_timeout_retry.1 0 [.response 200 "ok"] (by decide),
   C8_timeout_retry.2.1 3 [.timeout] (by decide)⟩

/-! ## Message-list parsing (`MailsacService.get_messages`) -/

/-- C9: the record loop of `get_messages` skips records whose parse raises
`ValueError` (for example a malformed date) and keeps well-formed ones;
but the `except (ValidationError, ValueError)` clause does not cover the
`IndexError` raised by `msg_data.get('from', [{}])[0]` on a record whose
`from` field is an empty list, so that single bad record escapes the loop
and fails the whole fetch with `EMAIL_FETCH_FAILED` — contradicting the
claim that one bad record never fails the fetch. -/
theorem C9_bad_record_fails_fetch :
    get_messages_parse
        (fun s => if s = "2024-01-01T00:00:00Z" then some 5 else none)
        "u@mailsac.com"
        [⟨some "m1", some [some "alice@example.com"], some "Hello",
            some "2024-01-01T00:00:00Z"⟩,
         ⟨some "m2", some [some "bob@example.com"], some "Bad",
            some "not-a-date"⟩] =
      .messages [⟨"m1", "alice@example.com", "u@mailsac.com", "Hello", 5, none⟩] ∧
    get_messages_parse
        (fun s => if s = "2024-01-01T00:00:00Z" then some 5 else none)
        "u@mailsac.com"
        [⟨some "m1", some [some "alice@example.com"], some "Hello",
            some "2024-01-01T00:00:00Z"⟩,
         ⟨some "m3", some [], some "Oops", some "2024-01-01T00:00:00Z"⟩] =
      .fetchError .EMAIL_FETCH_FAILED := by
  constructor <;> decide

/-! ## Fail-open composite check (`check_rate_limits`) -/

/-- C7: the `except` structure of `check_rate_limits` swallows any
exception other than `RateLimitError` — the function returns normally with
the state reached so far, allowing the request through — while a
`RateLimitError` raised by any layer is re-raised unchanged; and
`check_rate_limits` is exactly this handler wrapped around the sequential
check body. -/
theorem C7_fail_open :
    (∀ (msg : String) (st : RateLimiter),
      rateLimitHandler (.fault msg st) = .passed st) ∧
    (∀ (t : String) (r : ℤ) (st : RateLimiter),
      rateLimitHandler (.limited t r st) = .limited t r st) ∧
    (∀ (rl : RateLimiter) (now : ℚ) (uid : String) (svc : Option String),
      check_rate_limits rl now uid svc =
        rateLimitHandler (checkRateLimitsBody rl now uid svc)) :=
  ⟨fun _ _ => rfl, fun _ _ _ => rfl, fun _ _ _ _ => rfl⟩

/-! ## Composite rate limiter lemmas -/

theorem TokenBucket.tua_snd (b : TokenBucket) (now n : ℚ) :
    (b.time_until_available now n).2 = b.refill now := by
  simp only [TokenBucket.time_until_available]
  split_ifs <;> rfl

theorem TokenBucket.tua_fst (b : TokenBucket) (now n : ℚ) :
    (b.time_until_available now n).1 =
      if n ≤ (b.refill now).tokens then 0
      else (n - (b.refill now).tokens) / (b.refill now).refill_rate := by
  simp only [TokenBucket.time_until_available]
  split_ifs <;> rfl

theorem TokenBucket.refill_last (b : TokenBucket) (now : ℚ) :
    (b.refill now).last_refill = now := rfl

theorem is_allowed_true_queue (l : SlidingWindowRateLimiter) (now : ℚ) (key : String)
    (h : (l.is_allowed now key).1 = true) :
    (l.is_allowed now key).2.getQueue key =
      pruneWindow (now - l.window_seconds) (l.getQueue key) ++ [now] := by
  simp only [SlidingWindowRateLimiter.is_allowed, queueStep,
    SlidingWindowRateLimiter.getQueue] at h ⊢
  split_ifs at h ⊢ with hc
  · simp [alGet_alSet_self]

theorem check_global_limited_spec (rl : RateLimiter) (now : ℚ) (t : String)
    (r : ℤ) (st : RateLimiter)
    (h : rl.check_global_rate_limit now = .limited t r st) :
    t = "global" ∧ r = pyInt (st.global_limiter.get_reset_time "global" - now) ∧
    st.user_limiter = rl.user_limiter ∧ st.api_limiter = rl.api_limiter ∧
    st.user_buckets = rl.user_buckets := by
  simp only [RateLimiter.check_global_rate_limit] at h
  by_cases hc : (rl.global_limiter.is_allowed now "global").1 = true
  · rw [if_pos hc] at h
    exact CheckOutcome.noConfusion h
  · rw [if_neg hc] at h
    injection h with h1 h2 h3
    subst h1; subst h2; subst h3
    exact ⟨rfl, rfl, rfl, rfl, rfl⟩

theorem check_global_passed_spec (rl : RateLimiter) (now : ℚ) (st : RateLimiter)
    (h : rl.check_global_rate_limit now = .passed st) :
    st.user_limiter = rl.user_limiter ∧ st.api_limiter = rl.api_limiter ∧
    st.user_buckets = rl.user_buckets := by
  simp only [RateLimiter.check_global_rate_limit] at h
  by_cases hc : (rl.global_limiter.is_allowed now "global").1 = true
  · rw [if_pos hc] at h
    injection h with h1
    subst h1
    exact ⟨rfl, rfl, rfl⟩
  · rw [if_neg hc] at h
    exact CheckOutcome.noConfusion h

theorem check_api_limited_spec (rl : RateLimiter) (now : ℚ) (s : String)
    (t : String) (r : ℤ) (st : RateLimiter)
    (h : rl.check_api_rate_limit now s = .limited t r st) :
    t = "api:" ++ s ∧
    r = pyInt (st.api_limiter.get_reset_time ("api:" ++ s) - now) ∧
    st.user_limiter = rl.user_limiter ∧ st.global_limiter = rl.global_limiter ∧
    st.user_buckets = rl.user_buckets := by
  simp only [RateLimiter.check_api_rate_limit] at h
  by_cases hc : (rl.api_limiter.is_allowed now ("api:" ++ s)).1 = true
  · rw [if_pos hc] at h
    exact CheckOutcome.noConfusion h
  · rw [if_neg hc] at h
    injection h with h1 h2 h3
    subst h1; subst h2; subst h3
    exact ⟨rfl, rfl, rfl, rfl, rfl⟩

theorem check_api_passed_spec (rl : RateLimiter) (now : ℚ) (s : String)
    (st : RateLimiter) (h : rl.check_api_rate_limit now s = .passed st) :
    st.user_limiter = rl.user_limiter ∧ st.global_limiter = rl.global_limiter ∧
    st.user_buckets = rl.user_buckets := by
  simp only [RateLimiter.check_api_rate_limit] at h
  by_cases hc : (rl.api_limiter.is_allowed now ("api:" ++ s)).1 = true
  · rw [if_pos hc] at h
    injection h with h1
    subst h1
    exact ⟨rfl, rfl, rfl⟩
  · rw [if_neg hc] at h
    exact CheckOutcome.noConfusion h

theorem check_user_limited_spec (rl : RateLimiter) (now : ℚ) (uid : String)
    (t : String) (r : ℤ) (st : RateLimiter)
    (h : rl.check_user_rate_limit now uid = .limited t r st) :
    (t = "user" ∨ t = "burst") ∧
    st.global_limiter = rl.global_limiter ∧ st.api_limiter = rl.api_limiter ∧
    (t = "user" →
      r = pyInt (st.user_limiter.get_reset_time ("user:" ++ uid) - now) ∧
      st.user_buckets = rl.user_buckets) ∧
    (t = "burst" →
      ∃ b : TokenBucket, alGet st.user_buckets uid = some b ∧
        b.last_refill = now ∧
        r = pyInt (if 1 ≤ b.tokens then 0 else (1 - b.tokens) / b.refill_rate)) := by
  simp only [RateLimiter.check_user_rate_limit] at h
  by_cases hw : (rl.user_limiter.is_allowed now ("user:" ++ uid)).1 = true
  · rw [if_pos hw] at h
    split_ifs at h with hc
    · injection h with h1 h2 h3
      subst h1; subst h2; subst h3
      refine ⟨Or.inr rfl, rfl, rfl, by intro hb; exact absurd hb (by decide), ?_⟩
      intro _
      refine ⟨_, alGet_alSet_self _ _ _, ?_, ?_⟩
      · rw [TokenBucket.tua_snd]
        exact TokenBucket.refill_last _ _
      · rw [TokenBucket.tua_fst, TokenBucket.tua_snd]
  · rw [if_neg hw] at h
    injection h with h1 h2 h3
    subst h1; subst h2; subst h3
    exact ⟨Or.inl rfl, rfl, rfl, fun _ => ⟨rfl, rfl⟩,
      by intro hb; exact absurd hb (by decide)⟩

/-- C2: `check_rate_limits(user_id, service)` evaluates global window,
then per-user window, then per-user token bucket, then (only when a
service name is supplied) the per-service window; the first rejecting
layer raises a `RateLimitError` carrying that layer's `limit_type`
(`"global"`, `"user"`, `"burst"`, or `"api:<service>"`) and a
`retry_after` computed from that limiter's own reset (sliding windows) or
availability (token bucket) calculation, and no later layer is checked or
has its state touched. -/
theorem C2_check_order (rl : RateLimiter) (now : ℚ) (uid : String)
    (svc : Option String) :
    (∀ (t : String) (r : ℤ) (st : RateLimiter),
      rl.check_global_rate_limit now = .limited t r st →
      check_rate_limits rl now uid svc = .limited t r st ∧ t = "global" ∧
      r = pyInt (st.global_limiter.get_reset_time "global" - now) ∧
      st.user_limiter = rl.user_limiter ∧ st.api_limiter = rl.api_limiter ∧
      st.user_buckets = rl.user_buckets) ∧
    (∀ (st1 : RateLimiter) (t : String) (r : ℤ) (st : RateLimiter),
      rl.check_global_rate_limit now = .passed st1 →
      st1.check_user_rate_limit now uid = .limited t r st →
      check_rate_limits rl now uid svc = .limited t r st ∧
      (t = "user" ∨ t = "burst") ∧
      st.global_limiter = st1.global_limiter ∧ st.api_limiter = st1.api_limiter ∧
      (t = "user" →
        r = pyInt (st.user_limiter.get_reset_time ("user:" ++ uid) - now) ∧
        st.user_buckets = st1.user_buckets) ∧
      (t = "burst" →
        ∃ b : TokenBucket, alGet st.user_buckets uid = some b ∧
          b.last_refill = now ∧
          r = pyInt (if 1 ≤ b.tokens then 0 else (1 - b.tokens) / b.refill_rate))) ∧
    (∀ (st1 st2 : RateLimiter),
      rl.check_global_rate_limit now = .passed st1 →
      st1.check_user_rate_limit now uid = .passed st2 →
      (svc = none → check_rate_limits rl now uid svc = .passed st2) ∧
      (∀ s : String, svc = some s → ¬ s = "" →
        (∀ st3 : RateLimiter, st2.check_api_rate_limit now s = .passed st3 →
          check_rate_limits rl now uid svc = .passed st3) ∧
        (∀ (t : String) (r : ℤ) (st3 : RateLimiter),
          st2.check_api_rate_limit now s = .limited t r st3 →
          check_rate_limits rl now uid svc = .limited t r st3 ∧
          t = "api:" ++ s ∧
          r = pyInt (st3.api_limiter.get_reset_time ("api:" ++ s) - now) ∧
          st3.user_limiter = st2.user_limiter ∧
          st3.global_limiter = st2.global_limiter ∧
          st3.user_buckets = st2.user_buckets))) := by
  refine ⟨?_, ?_, ?_⟩
  · intro t r st h
    have hs := check_global_limited_spec rl now t r st h
    refine ⟨?_, hs.1, hs.2.1, hs.2.2.1, hs.2.2.2.1, hs.2.2.2.2⟩
    simp only [check_rate_limits, checkRateLimitsBody, h, rateLimitHandler]
  · intro st1 t r st hg hu
    have hs := check_user_limited_spec st1 now uid t r st hu
    refine ⟨?_, hs.1, hs.2.1, hs.2.2.1, hs.2.2.2.1, hs.2.2.2.2⟩
    simp only [check_rate_limits, checkRateLimitsBody, hg, hu, rateLimitHandler]
  · intro st1 st2 hg hu
    constructor
    · intro hnone
      subst hnone
      simp only [check_rate_limits, checkRateLimitsBody, hg, hu, rateLimitHandler]
    · intro s hsvc hne
      subst hsvc
      constructor
      · intro st3 ha
        simp only [check_rate_limits, checkRateLimitsBody, hg, hu, if_neg hne,
          ha, rateLimitHandler]
      · intro t r st3 ha
        have hs := check_api_limited_spec st2 now s t r st3 ha
        refine ⟨?_, hs.1, hs.2.1, hs.2.2.1, hs.2.2.2.1, hs.2.2.2.2⟩
        simp only [check_rate_limits, checkRateLimitsBody, hg, hu, if_neg hne,
          ha, rateLimitHandler]

/-- C2 witness: a state whose global window (capacity 2) already holds two
timestamps rejects at the global layer at time 30 with
`retry_after = int(0 + 60 - 30) = 30`, short-circuiting the composite
check and leaving the user, api and bucket state untouched. -/
theorem C2_check_order_witness :
    check_rate_limits
        ⟨⟨30, 60, []⟩, ⟨2, 60, [("global", [0, 1])]⟩, ⟨60, 60, []⟩, []⟩
        30 "42" (some "mailsac") =
      .limited "global" 30
        ⟨⟨30, 60, []⟩, ⟨2, 60, [("global", [0, 1])]⟩, ⟨60, 60, []⟩, []⟩ := by
  have hg : RateLimiter.check_global_rate_limit
      ⟨⟨30, 60, []⟩, ⟨2, 60, [("global", [0, 1])]⟩, ⟨60, 60, []⟩, []⟩ 30 =
      .limited "global" 30
        ⟨⟨30, 60, []⟩, ⟨2, 60, [("global", [0, 1])]⟩, ⟨60, 60, []⟩, []⟩ := by
    norm_num [RateLimiter.check_global_rate_limit, SlidingWindowRateLimiter.is_allowed,
      SlidingWindowRateLimiter.getQueue, SlidingWindowRateLimiter.get_reset_time,
      queueStep, pruneWindow, alGet, alSet, pyInt]
  exact ((C2_check_order
    ⟨⟨30, 60, []⟩, ⟨2, 60, [("global", [0, 1])]⟩, ⟨60, 60, []⟩, []⟩
    30 "42" (some "mailsac")).1 "global" 30
    ⟨⟨30, 60, []⟩, ⟨2, 60, [("global", [0, 1])]⟩, ⟨60, 60, []⟩, []⟩ hg).1

/-- C10: whenever `check_user_rate_limit` raises the burst (token-bucket)
signal, the per-user sliding window has already appended the request's
timestamp: the stored queue for `user:<id>` equals its pruned value with
`now` appended, so a burst-rejected request still consumes one unit of the
user window quota. -/
theorem C10_burst_consumes_window (rl : RateLimiter) (now : ℚ) (uid : String)
    (r : ℤ) (st : RateLimiter)
    (h : rl.check_user_rate_limit now uid = .limited "burst" r st) :
    st.user_limiter.getQueue ("user:" ++ uid) =
      pruneWindow (now - rl.user_limiter.window_seconds)
        (rl.user_limiter.getQueue ("user:" ++ uid)) ++ [now] := by
  simp only [RateLimiter.check_user_rate_limit] at h
  by_cases hw : (rl.user_limiter.is_allowed now ("user:" ++ uid)).1 = true
  · rw [if_pos hw] at h
    split_ifs at h with hc
    · injection h with h1 h2 h3
      subst h3
      exact is_allowed_true_queue rl.user_limiter now ("user:" ++ uid) hw
  · rw [if_neg hw] at h
    injection h with h1 h2 h3
    exact absurd h1 (by decide)

/-- C10 witness: a user whose bucket is empty (tokens 0, refilled at the
call time) is burst-rejected at time 0 with `retry_after = 2`, and the
resulting state holds the appended timestamp 0 in the user window. -/
theorem C10_burst_consumes_window_witness :
    (⟨⟨30, 60, [("user:" ++ "42", [0])]⟩, ⟨1000, 60, []⟩, ⟨60, 60, []⟩,
        [("42", ⟨10, 1/2, 0, 0⟩)]⟩ : RateLimiter).user_limiter.getQueue
        ("user:" ++ "42") =
      pruneWindow
        (0 - (⟨⟨30, 60, []⟩, ⟨1000, 60, []⟩, ⟨60, 60, []⟩,
          [("42", ⟨10, 1/2, 0, 0⟩)]⟩ : RateLimiter).user_limiter.window_seconds)
        ((⟨⟨30, 60, []⟩, ⟨1000, 60, []⟩, ⟨60, 60, []⟩,
          [("42", ⟨10, 1/2, 0, 0⟩)]⟩ : RateLimiter).user_limiter.getQueue
          ("user:" ++ "42")) ++ [0] := by
  refine C10_burst_consumes_window
    ⟨⟨30, 60, []⟩, ⟨1000, 60, []⟩, ⟨60, 60, []⟩, [("42", ⟨10, 1/2, 0, 0⟩)]⟩
    0 "42" 2
    ⟨⟨30, 60, [("user:" ++ "42", [0])]⟩, ⟨1000, 60, []⟩, ⟨60, 60, []⟩,
      [("42", ⟨10, 1/2, 0, 0⟩)]⟩ ?_
  norm_num [RateLimiter.check_user_rate_limit, RateLimiter.get_user_bucket,
    SlidingWindowRateLimiter.is_allowed, SlidingWindowRateLimiter.getQueue,
    SlidingWindowRateLimiter.get_reset_time, queueStep, pruneWindow,
    alGet, alSet, TokenBucket.consume, TokenBucket.refill,
    TokenBucket.time_until_available, pyInt]

/-! ## Scenario lemmas for repeated user checks -/

theorem is_allowed_single_true (mr : ℕ) (ws : ℚ) (key : String) (q : List ℚ)
    (now : ℚ) (hpr : pruneWindow (now - ws) q = q) (hlt : q.length < mr) :
    SlidingWindowRateLimiter.is_allowed ⟨mr, ws, [(key, q)]⟩ now key =
      (true, ⟨mr, ws, [(key, q ++ [now])]⟩) := by
  simp [SlidingWindowRateLimiter.is_allowed, SlidingWindowRateLimiter.getQueue,
    alGet, queueStep, hpr, hlt, alSet]

theorem is_allowed_single_false (mr : ℕ) (ws : ℚ) (key : String) (q : List ℚ)
    (now : ℚ) (hpr : pruneWindow (now - ws) q = q) (hlt : ¬ q.length < mr) :
    SlidingWindowRateLimiter.is_allowed ⟨mr, ws, [(key, q)]⟩ now key =
      (false, ⟨mr, ws, [(key, q)]⟩) := by
  simp [SlidingWindowRateLimiter.is_allowed, SlidingWindowRateLimiter.getQueue,
    alGet, queueStep, hpr, hlt, alSet]

theorem consume_full (cap rate tk lr now n : ℚ)
    (hcap : cap ≤ tk + (now - lr) * rate) (hn : n ≤ cap) :
    TokenBucket.consume ⟨cap, rate, tk, lr⟩ now n =
      (true, ⟨cap, rate, cap - n, now⟩) := by
  simp [TokenBucket.consume, TokenBucket.refill, min_eq_left hcap, hn]

theorem C6_step (u : ℕ → ℚ) (k : ℕ) (h1 : 1 ≤ k) (h2 : k ≤ 29)
    (hgap : u (k - 1) + 2 ≤ u k) (hwin : ∀ i, i < k → ¬ u i < u k - 60) :
    RateLimiter.check_user_rate_limit (userCallState u k) (u k) "42" =
      .passed (userCallState u (k + 1)) := by
  have hpr : pruneWindow (u k - 60) ((List.range k).map u) = (List.range k).map u := by
    refine pruneWindow_eq_self _ _ (fun x hx => ?_)
    obtain ⟨i, hik, rfl⟩ := List.mem_map.mp hx
    exact hwin i (List.mem_range.mp hik)
  have hlt : ((List.range k).map u).length < 30 := by
    simp
    omega
  have hia := is_allowed_single_true 30 60 ("user:" ++ "42") ((List.range k).map u)
    (u k) hpr hlt
  have hcap : (10 : ℚ) ≤ 9 + (u k - u (k - 1)) * (1 / 2) := by linarith
  have hcons := consume_full 10 (1/2) 9 (u (k - 1)) (u k) 1 hcap (by norm_num)
  simp only [userCallState, RateLimiter.check_user_rate_limit] at hia hcons ⊢
  rw [hia]
  have hk1 : k + 1 - 1 = k := by omega
  have hr : (List.range (k + 1)).map u = (List.range k).map u ++ [u k] := by
    rw [List.range_succ, List.map_append, List.map_singleton]
  norm_num [RateLimiter.get_user_bucket, alGet, alSet, hcons, hk1, hr]

theorem C6_first (u : ℕ → ℚ) :
    RateLimiter.check_user_rate_limit RateLimiter.init (u 0) "42" =
      .passed (userCallState u 1) := by
  norm_num [RateLimiter.init, RateLimiter.check_user_rate_limit,
    RateLimiter.get_user_bucket, TokenBucket.make, TokenBucket.consume,
    TokenBucket.refill, SlidingWindowRateLimiter.is_allowed,
    SlidingWindowRateLimiter.getQueue, queueStep, pruneWindow, alGet, alSet,
    userCallState, List.range_succ, SecurityConstants.USER_RATE_LIMIT,
    SecurityConstants.GLOBAL_RATE_LIMIT, APIConstants.MAX_REQUESTS_PER_MINUTE]

theorem C6_run (u : ℕ → ℚ) (hgap : ∀ i, i < 29 → u i + 2 ≤ u (i + 1))
    (h30 : u 29 ≤ u 30) (hspan : u 30 ≤ u 0 + 60) :
    ∀ (n k : ℕ), n + k = 30 → 1 ≤ k →
      (runUserCalls (userCallState u k) "42"
          ((List.range' k (31 - k)).map u)).map CheckOutcome.tag =
        List.replicate (30 - k) none ++ [some "user"] := by
  have hstep1 : ∀ i, i < 29 → u i ≤ u (i + 1) := fun i h => by linarith [hgap i h]
  have mono : ∀ i j, i ≤ j → j ≤ 29 → u i ≤ u j := by
    intro i j hij hj
    induction hij with
    | refl => exact le_refl _
    | @step m hm ih => exact le_trans (ih (by omega)) (hstep1 m (by omega))
  have hub : ∀ i, i ≤ 30 → u i ≤ u 30 := by
    intro i hi
    rcases Nat.lt_or_ge i 30 with h | h
    · exact le_trans (mono i 29 (by omega) (by omega)) h30
    · have h' : i = 30 := by omega
      rw [h']
  have hlb : ∀ i, i ≤ 29 → u 0 ≤ u i := fun i hi => mono 0 i (Nat.zero_le _) hi
  intro n
  induction n with
  | zero =>
      intro k hk h1
      have hk30 : k = 30 := by omega
      subst hk30
      have hpr : pruneWindow (u 30 - 60) ((List.range 30).map u) =
          (List.range 30).map u := by
        refine pruneWindow_eq_self _ _ (fun x hx => ?_)
        obtain ⟨i, hik, rfl⟩ := List.mem_map.mp hx
        have hi := List.mem_range.mp hik
        have hl := hlb i (by omega)
        intro hcon
        linarith
      have hia := is_allowed_single_false 30 60 ("user:" ++ "42")
        ((List.range 30).map u) (u 30) hpr (by simp)
      rw [show List.range' 30 (31 - 30) = [30] from rfl]
      simp only [List.map_cons, List.map_nil, runUserCalls]
      simp only [userCallState, RateLimiter.check_user_rate_limit]
      rw [hia]
      simp [CheckOutcome.tag]
  | succ n ih =>
      intro k hk h1
      have hk29 : k ≤ 29 := by omega
      have hrange : List.range' k (31 - k) =
          k :: List.range' (k + 1) (31 - (k + 1)) := by
        have h31 : 31 - k = (31 - (k + 1)) + 1 := by omega
        rw [h31, List.range'_succ]
      rw [hrange]
      simp only [List.map_cons, runUserCalls]
      have hgap' : u (k - 1) + 2 ≤ u k := by
        have h := hgap (k - 1) (by omega)
        rwa [show k - 1 + 1 = k from by omega] at h
      have hwin : ∀ i, i < k → ¬ u i < u k - 60 := by
        intro i hik
        have h1' := hlb i (by omega)
        have h2' := hub k (by omega)
        intro hcon
        linarith
      rw [C6_step u k h1 hk29 hgap' hwin]
      simp only [CheckOutcome.state]
      have htail := ih (k + 1) (by omega) (by omega)
      simp only [List.map_cons, CheckOutcome.tag, htail]
      have h30k : 30 - k = (30 - (k + 1)) + 1 := by omega
      rw [h30k, List.replicate_succ]
      simp

theorem runUserCalls_cons (rl : RateLimiter) (key : String) (t : ℚ)
    (ts : List ℚ) :
    runUserCalls rl key (t :: ts) =
      rl.check_user_rate_limit t key ::
        runUserCalls (rl.check_user_rate_limit t key).state key ts := rfl

/-- C6 (amended): 31 calls of `check_user_rate_limit("42")` from a fresh
`RateLimiter` at times `u 0, ..., u 30`, all within a 60-second span
(`u 30 ≤ u 0 + 60`) and with the first 30 calls spaced at least 2 seconds
apart (so the burst bucket refills to capacity before each consume): the
first 30 calls succeed and the 31st raises the rate-limit signal with
`limit_type = "user"`. -/
theorem C6_user_limit_31st (u : ℕ → ℚ)
    (hgap : ∀ i, i < 29 → u i + 2 ≤ u (i + 1))
    (h30 : u 29 ≤ u 30) (hspan : u 30 ≤ u 0 + 60) :
    (runUserCalls RateLimiter.init "42" ((List.range 31).map u)).map
        CheckOutcome.tag =
      List.replicate 30 none ++ [some "user"] := by
  have hsplit : (List.range 31).map u = u 0 :: (List.range' 1 30).map u := by
    rw [List.range_eq_range', show (31:ℕ) = 30 + 1 from rfl, List.range'_succ]
    simp
  rw [hsplit]
  have hrun := C6_run u hgap h30 hspan 29 1 (by omega) (by omega)
  rw [show (31:ℕ) - 1 = 30 from rfl] at hrun
  rw [runUserCalls_cons, C6_first u]
  simp only [List.map_cons, CheckOutcome.state, CheckOutcome.tag, hrun]
  rw [show (30:ℕ) = 29 + 1 from rfl, List.replicate_succ]
  simp

set_option maxHeartbeats 2000000 in
/-- C6 counterexample: the claim quantifies over every sequence of 31
calls within a 60-second window, but for 31 calls all at time 0 the token
bucket (capacity 10) empties after 10 allowed calls, so calls 11 through
30 raise the `"burst"` signal — the first 30 calls do not all succeed. -/
theorem C6_counterexample :
    (runUserCalls RateLimiter.init "42" (List.replicate 31 (0 : ℚ))).map
        CheckOutcome.tag =
      List.replicate 10 none ++ List.replicate 20 (some "burst") ++
        [some "user"] := by
  norm_num [RateLimiter.init, runUserCalls, RateLimiter.check_user_rate_limit,
    RateLimiter.get_user_bucket, TokenBucket.make, TokenBucket.consume,
    TokenBucket.refill, TokenBucket.time_until_available,
    SlidingWindowRateLimiter.is_allowed, SlidingWindowRateLimiter.getQueue,
    SlidingWindowRateLimiter.get_reset_time, queueStep, pruneWindow,
    alGet, alSet, pyInt, CheckOutcome.state, CheckOutcome.tag,
    List.replicate, SecurityConstants.USER_RATE_LIMIT,
    SecurityConstants.GLOBAL_RATE_LIMIT, APIConstants.MAX_REQUESTS_PER_MINUTE]

/-- C6 witness: the amended theorem applied to the schedule
0, 2, 4, ..., 58, 59 — thirty calls two seconds apart and a 31st call one
second later, spanning 59 seconds. -/
theorem C6_user_limit_31st_witness :
    (runUserCalls RateLimiter.init "42"
        ((List.range 31).map (fun i => if i = 30 then 59 else 2 * (i : ℚ)))).map
        CheckOutcome.tag =
      List.replicate 30 none ++ [some "user"] := by
  refine C6_user_limit_31st (fun i => if i = 30 then 59 else 2 * (i : ℚ)) ?_ ?_ ?_
  · intro i hi
    simp only []
    rw [if_neg (by omega : ¬ i = 30), if_neg (by omega : ¬ i + 1 = 30)]
    push_cast
    linarith
  · norm_num
  · norm_num

/-! ## Association-list lemmas for the cache -/

theorem alKeys_cons {β : Type} (a : String) (b : β) (ps : List (String × β)) :
    alKeys ((a, b) :: ps) = a :: alKeys ps := rfl

theorem alGet_eq_none_of_notMem {β : Type} {l : List (String × β)} {k : String}
    (h : k ∉ alKeys l) : alGet l k = none := by
  induction l with
  | nil => rfl
  | cons p ps ih =>
      obtain ⟨a, b⟩ := p
      rw [alKeys_cons, List.mem_cons] at h
      push_neg at h
      rw [alGet, if_neg (fun hh => h.1 hh.symm)]
      exact ih h.2

theorem alGet_alRemove_self {β : Type} {l : List (String × β)} (k : String)
    (h : (alKeys l).Nodup) : alGet (alRemove l k) k = none := by
  induction l with
  | nil => rfl
  | cons p ps ih =>
      obtain ⟨a, b⟩ := p
      rw [alKeys_cons, List.nodup_cons] at h
      by_cases hak : a = k
      · subst hak
        rw [alRemove, if_pos rfl]
        exact alGet_eq_none_of_notMem h.1
      · rw [alRemove, if_neg hak, alGet, if_neg hak]
        exact ih h.2

theorem alSet_of_notMem {β : Type} {l : List (String × β)} {k : String} (v : β)
    (h : k ∉ alKeys l) : alSet l k v = l ++ [(k, v)] := by
  induction l with
  | nil => rfl
  | cons p ps ih =>
      obtain ⟨a, b⟩ := p
      rw [alKeys_cons, List.mem_cons] at h
      push_neg at h
      rw [alSet, if_neg (fun hh => h.1 hh.symm), ih h.2]
      rfl

theorem alKeys_alSet_mem {β : Type} {l : List (String × β)} {k : String} (v : β)
    (h : k ∈ alKeys l) : alKeys (alSet l k v) = alKeys l := by
  induction l with
  | nil => simp [alKeys] at h
  | cons p ps ih =>
      obtain ⟨a, b⟩ := p
      by_cases hak : a = k
      · rw [alSet, if_pos hak, alKeys_cons, alKeys_cons]
      · rw [alKeys_cons, List.mem_cons] at h
        rcases h with h | h
        · exact absurd h.symm hak
        · rw [alSet, if_neg hak, alKeys_cons, alKeys_cons, ih h]

theorem nodup_alKeys_alSet {β : Type} {l : List (String × β)} (k : String) (v : β)
    (h : (alKeys l).Nodup) : (alKeys (alSet l k v)).Nodup := by
  by_cases hk : k ∈ alKeys l
  · rw [alKeys_alSet_mem v hk]; exact h
  · rw [alSet_of_notMem v hk]
    have : alKeys (l ++ [(k, v)]) = alKeys l ++ [k] := by
      simp [alKeys]
    rw [this, List.nodup_append]
    exact ⟨h, List.nodup_singleton k, by simpa using hk⟩

theorem alRemove_sublist {β : Type} (l : List (String × β)) (k : String) :
    (alRemove l k).Sublist l := by
  induction l with
  | nil => simp [alRemove]
  | cons p ps ih =>
      obtain ⟨a, b⟩ := p
      by_cases hak : a = k
      · rw [alRemove, if_pos hak]
        exact (List.sublist_cons_self _ _)
      · rw [alRemove, if_neg hak]
        exact ih.cons₂ (a, b)

theorem alKeys_sublist_of_alRemove {β : Type} (l : List (String × β)) (k : String) :
    (alKeys (alRemove l k)).Sublist (alKeys l) := by
  unfold alKeys
  exact (alRemove_sublist l k).map _

theorem nodup_alKeys_alRemove {β : Type} {l : List (String × β)} (k : String)
    (h : (alKeys l).Nodup) : (alKeys (alRemove l k)).Nodup :=
  (alKeys_sublist_of_alRemove l k).nodup h

theorem length_alRemove {β : Type} {l : List (String × β)} {k : String}
    (h : k ∈ alKeys l) : (alRemove l k).length + 1 = l.length := by
  induction l with
  | nil => simp [alKeys] at h
  | cons p ps ih =>
      obtain ⟨a, b⟩ := p
      by_cases hak : a = k
      · rw [alRemove, if_pos hak]
        rfl
      · rw [alKeys_cons, List.mem_cons] at h
        rcases h with h | h
        · exact absurd h.symm hak
        · rw [alRemove, if_neg hak, List.length_cons, List.length_cons, ih h]

theorem mem_alKeys_alRemove {β : Type} {l : List (String × β)} {k k' : String}
    (h : (alKeys l).Nodup) :
    k' ∈ alKeys (alRemove l k) ↔ k' ∈ alKeys l ∧ k' ≠ k := by
  induction l with
  | nil => simp [alRemove, alKeys]
  | cons p ps ih =>
      obtain ⟨a, b⟩ := p
      rw [alKeys_cons, List.nodup_cons] at h
      by_cases hak : a = k
      · subst hak
        rw [alRemove, if_pos rfl, alKeys_cons, List.mem_cons]
        constructor
        · intro hm
          refine ⟨Or.inr hm, ?_⟩
          rintro rfl
          exact h.1 hm
        · rintro ⟨hm | hm, hne⟩
          · exact absurd hm hne
          · exact hm
      · rw [alRemove, if_neg hak, alKeys_cons, alKeys_cons, List.mem_cons,
          List.mem_cons, ih h.2]
        constructor
        · rintro (h1 | ⟨h1, h2⟩)
          · subst h1
            exact ⟨Or.inl rfl, fun hh => hak hh⟩
          · exact ⟨Or.inr h1, h2⟩
        · rintro ⟨h1 | h1, h2⟩
          · exact Or.inl h1
          · exact Or.inr ⟨h1, h2⟩

theorem alArgmin_isSome {l : List (String × ℚ)} (h : l ≠ []) :
    (alArgmin l).isSome := by
  cases l with
  | nil => exact absurd rfl h
  | cons q qs =>
      obtain ⟨a, b⟩ := q
      rw [alArgmin]
      rcases alArgmin qs with - | ⟨k2, v2⟩
      · rfl
      · simp only []
        split_ifs <;> rfl

theorem alArgmin_eq_none {l : List (String × ℚ)} (h : alArgmin l = none) :
    l = [] := by
  cases l with
  | nil => rfl
  | cons q qs =>
      exfalso
      have hs := alArgmin_isSome (l := q :: qs) (by simp)
      rw [h] at hs
      simp at hs

theorem alArgmin_mem {l : List (String × ℚ)} {p : String × ℚ}
    (h : alArgmin l = some p) : p ∈ l := by
  induction l generalizing p with
  | nil => simp [alArgmin] at h
  | cons q qs ih =>
      obtain ⟨a, b⟩ := q
      rw [alArgmin] at h
      rcases hrec : alArgmin qs with - | ⟨k2, v2⟩
      · rw [hrec] at h
        simp only [] at h
        injection h with h
        simp [← h]
      · rw [hrec] at h
        simp only [] at h
        split_ifs at h with hle
        · injection h with h
          simp [← h]
        · injection h with h
          subst h
          exact List.mem_cons_of_mem _ (ih hrec)

theorem alArgmin_min {l : List (String × ℚ)} {p : String × ℚ}
    (h : alArgmin l = some p) : ∀ q ∈ l, p.2 ≤ q.2 := by
  induction l generalizing p with
  | nil => simp [alArgmin] at h
  | cons q qs ih =>
      obtain ⟨a, b⟩ := q
      rw [alArgmin] at h
      rcases hrec : alArgmin qs with - | ⟨k2, v2⟩
      · rw [hrec] at h
        simp only [] at h
        injection h with h
        subst h
        have hnil := alArgmin_eq_none hrec
        subst hnil
        intro x hx
        rcases List.mem_cons.mp hx with hx | hx
        · simp [hx]
        · simp at hx
      · rw [hrec] at h
        simp only [] at h
        split_ifs at h with hle
        · injection h with h
          subst h
          intro x hx
          rcases List.mem_cons.mp hx with hx | hx
          · simp [hx]
          · exact le_trans hle (ih hrec x hx)
        · injection h with h
          subst h
          intro x hx
          rcases List.mem_cons.mp hx with hx | hx
          · rw [hx]
            exact le_of_lt (lt_of_not_le hle)
          · exact ih hrec x hx

theorem entry_eq_of_nodup {β : Type} {l : List (String × β)}
    (h : (alKeys l).Nodup) {p q : String × β} (hp : p ∈ l) (hq : q ∈ l)
    (hk : p.1 = q.1) : p = q := by
  induction l with
  | nil => simp at hp
  | cons x xs ih =>
      obtain ⟨a, b⟩ := x
      rw [alKeys_cons, List.nodup_cons] at h
      rcases List.mem_cons.mp hp with hp1 | hp1 <;>
        rcases List.mem_cons.mp hq with hq1 | hq1
      · rw [hp1, hq1]
      · exfalso
        apply h.1
        have : q.1 = a := by rw [← hk, hp1]
        rw [← this]
        exact List.mem_map_of_mem _ hq1
      · exfalso
        apply h.1
        have : p.1 = a := by rw [hk, hq1]
        rw [← this]
        exact List.mem_map_of_mem _ hp1
      · exact ih h.2 hp1 hq1

/-! ## MemoryCache lemmas -/

theorem alKeys_sublist {β : Type} {l l' : List (String × β)} (h : l.Sublist l') :
    (alKeys l).Sublist (alKeys l') := by
  unfold alKeys
  exact h.map _

theorem max_size_evict_expired {α : Type} (c : MemoryCache α) (now : ℚ) :
    (c.evict_expired now).max_size = c.max_size := rfl

theorem WF_evict_expired {α : Type} {c : MemoryCache α} (h : c.WF) (now : ℚ) :
    (c.evict_expired now).WF := by
  obtain ⟨h1, h2, h3, h4⟩ := h
  refine ⟨(alKeys_sublist (List.filter_sublist _)).nodup h1,
    (alKeys_sublist (List.filter_sublist _)).nodup h2, ?_, ?_⟩
  · intro k hk
    simp only [MemoryCache.evict_expired, alKeys, List.mem_map] at hk ⊢
    obtain ⟨p, hp, rfl⟩ := hk
    rw [List.mem_filter] at hp
    have hka := h3 p.1 (List.mem_map_of_mem _ hp.1)
    simp only [alKeys, List.mem_map] at hka
    obtain ⟨q, hq, hqk⟩ := hka
    refine ⟨q, ?_, hqk⟩
    rw [List.mem_filter]
    refine ⟨hq, ?_⟩
    simp only [decide_eq_true_eq]
    intro hcont
    rw [List.contains_iff_exists_mem_beq] at hcont
    obtain ⟨k', hk', hbeq⟩ := hcont
    simp only [List.mem_map] at hk'
    obtain ⟨p', hp', hp'k⟩ := hk'
    rw [List.mem_filter] at hp'
    have hkeq : p.1 = p'.1 := by
      have hqk' : q.1 = k' := by simpa using hbeq
      rw [hqk] at hqk'
      rw [← hp'k] at hqk'
      exact hqk'
    have hpp' := entry_eq_of_nodup h1 hp.1 hp'.1 hkeq
    rw [hpp'] at hp
    simp only [decide_eq_true_eq] at hp
    have he := hp'.2
    simp only [decide_eq_true_eq] at he
    exact hp.2 he
  · intro k hk
    simp only [MemoryCache.evict_expired, alKeys, List.mem_map] at hk ⊢
    obtain ⟨q, hq, rfl⟩ := hk
    rw [List.mem_filter] at hq
    have hkc := h4 q.1 (List.mem_map_of_mem _ hq.1)
    simp only [alKeys, List.mem_map] at hkc
    obtain ⟨p, hp, hpk⟩ := hkc
    refine ⟨p, ?_, hpk⟩
    rw [List.mem_filter]
    refine ⟨hp, ?_⟩
    simp only [decide_eq_true_eq]
    intro hexp
    have hq2 := hq.2
    simp only [decide_eq_true_eq] at hq2
    apply hq2
    rw [List.contains_iff_exists_mem_beq]
    refine ⟨q.1, ?_, by simp⟩
    simp only [List.mem_map]
    exact ⟨p, List.mem_filter.mpr ⟨hp, by simpa using hexp⟩, hpk⟩

theorem evict_expired_of_fresh {α : Type} (c : MemoryCache α) (now : ℚ)
    (h : ∀ p ∈ c.cache, now ≤ p.2.2) : c.evict_expired now = c := by
  have hnil : c.cache.filter (fun p => decide (p.2.2 < now)) = [] := by
    rw [List.filter_eq_nil_iff]
    intro p hp
    simp [not_lt.mpr (h p hp)]
  have hself : c.cache.filter (fun p => decide (¬ p.2.2 < now)) = c.cache := by
    rw [List.filter_eq_self]
    intro p hp
    simp [not_lt.mpr (h p hp)]
  simp only [MemoryCache.evict_expired, hnil, hself, List.map_nil]
  have hacc : c.access_times.filter
      (fun p => decide (¬ ([] : List String).contains p.1)) = c.access_times := by
    rw [List.filter_eq_self]
    intro p hp
    simp
  rw [hacc]

theorem evict_lru_fuel_spec {α : Type} :
    ∀ (fuel : ℕ) (c : MemoryCache α), c.WF → 1 ≤ c.max_size →
      c.cache.length < fuel →
      ∃ c', MemoryCache.evict_lru_fuel fuel c = some c' ∧ c'.WF ∧
        c'.max_size = c.max_size := by
  intro fuel
  induction fuel with
  | zero => intro c _ _ h; omega
  | succ n ih =>
      intro c hwf hms hlen
      by_cases hcap : c.max_size ≤ c.cache.length
      · obtain ⟨h1, h2, h3, h4⟩ := hwf
        have hcne : c.cache ≠ [] := by
          intro h0
          rw [h0] at hcap
          simp at hcap
          omega
        have hane : c.access_times ≠ [] := by
          intro h0
          obtain ⟨p, hp⟩ := List.exists_mem_of_ne_nil _ hcne
          have hmm := h3 p.1 (List.mem_map_of_mem _ hp)
          rw [h0] at hmm
          simp [alKeys] at hmm
        obtain ⟨⟨lru, t⟩, halg⟩ := Option.isSome_iff_exists.mp (alArgmin_isSome hane)
        have hlrukeys : lru ∈ alKeys c.access_times :=
          List.mem_map_of_mem _ (alArgmin_mem halg)
        have hlrucache := h4 lru hlrukeys
        have hwfr : MemoryCache.WF
            { c with cache := alRemove c.cache lru,
                     access_times := alRemove c.access_times lru } := by
          refine ⟨nodup_alKeys_alRemove _ h1, nodup_alKeys_alRemove _ h2, ?_, ?_⟩
          · intro k hk
            have hk' : k ∈ alKeys (alRemove c.cache lru) := hk
            rw [mem_alKeys_alRemove h1] at hk'
            exact (mem_alKeys_alRemove h2).mpr ⟨h3 k hk'.1, hk'.2⟩
          · intro k hk
            have hk' : k ∈ alKeys (alRemove c.access_times lru) := hk
            rw [mem_alKeys_alRemove h2] at hk'
            exact (mem_alKeys_alRemove h1).mpr ⟨h4 k hk'.1, hk'.2⟩
        have hlenr : (alRemove c.cache lru).length < n := by
          have hrl := length_alRemove hlrucache
          have hpos : 0 < c.cache.length := List.length_pos.mpr hcne
          omega
        obtain ⟨c', hc', hwf', hmax'⟩ := ih _ hwfr hms hlenr
        refine ⟨c', ?_, hwf', hmax'⟩
        simp only [MemoryCache.evict_lru_fuel]
        rw [if_pos hcap, halg]
        exact hc'
      · refine ⟨c, ?_, hwf, rfl⟩
        simp only [MemoryCache.evict_lru_fuel]
        rw [if_neg hcap]

/-- C3 (amended): on a well-formed `MemoryCache` with `max_size ≥ 1`,
`set(k, v, ttl)` with `ttl > 0` completes, and afterwards `get(k)` at any
elapsed time `0 ≤ e < ttl` returns `v` — in particular immediately after
the `set`, regardless of the prior cache state and of any eviction the
insert triggered — while `get(k)` at elapsed time `e > ttl` returns absent
and purges the entry from the cache dict. The `max_size ≥ 1` hypothesis is
forced: with `max_size = 0` the eviction loop calls `min` on an empty
dict and `set` raises `ValueError`. -/
theorem C3_cache_set_get {α : Type} [DecidableEq α] (c : MemoryCache α)
    (now : ℚ) (key : String) (v : α) (ttl e : ℚ) (c' : MemoryCache α)
    (hwf : c.WF) (hms : 1 ≤ c.max_size) (httl : 0 < ttl) :
    (c.set now key v ttl).isSome ∧
    (c.set now key v ttl = some c' →
      ((0 ≤ e → e < ttl → (c'.get (now + e) key).1 = some v) ∧
       (ttl < e → (c'.get (now + e) key).1 = none ∧
         alGet ((c'.get (now + e) key).2).cache key = none))) := by
  have hwf1 := WF_evict_expired hwf now
  have hms1 : 1 ≤ (c.evict_expired now).max_size := hms
  obtain ⟨c2, hlru, hwf2, hmax2⟩ := evict_lru_fuel_spec
    ((c.evict_expired now).cache.length + 1) (c.evict_expired now) hwf1 hms1
    (by omega)
  have hset : c.set now key v ttl = some
      { c2 with cache := alSet c2.cache key (v, now + ttl),
                access_times := alSet c2.access_times key now } := by
    simp only [MemoryCache.set, hlru]
  refine ⟨by rw [hset]; rfl, ?_⟩
  intro hc'
  rw [hset] at hc'
  injection hc' with hc'
  subst hc'
  constructor
  · intro he0 helt
    simp only [MemoryCache.get, alGet_alSet_self]
    rw [if_neg (by linarith : ¬ now + ttl < now + e)]
  · intro hgt
    simp only [MemoryCache.get, alGet_alSet_self]
    rw [if_pos (by linarith : now + ttl < now + e)]
    exact ⟨rfl, alGet_alRemove_self key (nodup_alKeys_alSet key _ hwf2.1)⟩

/-- C3 counterexample: the claim quantifies over every `MemoryCache`; with
`max_size = 0` the eviction loop of `set` finds the cache still at
capacity after emptying it and calls `min` over the empty `_access_times`
dict, so `set` raises `ValueError` (modelled as `none`) and no `get` after
a completed `set` exists. -/
theorem C3_counterexample :
    MemoryCache.set (⟨0, [], []⟩ : MemoryCache ℕ) 0 "k" 5 10 = none := rfl

/-- C3 witness: a full one-slot cache holding key `"a"`; `set("b", 5, 60)`
at time 10 evicts `"a"`, and the amended theorem gives `get("b")` at
elapsed times 30 (hit, value 5) and 61 (expired: absent and purged). -/
theorem C3_cache_set_get_witness :
    (MemoryCache.set (⟨1, [("a", (0, 100))], [("a", 0)]⟩ : MemoryCache ℕ)
      10 "b" 5 60).isSome ∧
    ((⟨1, [("b", (5, 70))], [("b", 10)]⟩ : MemoryCache ℕ).get (10 + 30) "b").1 =
      some 5 ∧
    ((⟨1, [("b", (5, 70))], [("b", 10)]⟩ : MemoryCache ℕ).get (10 + 61) "b").1 =
      none ∧
    alGet (((⟨1, [("b", (5, 70))], [("b", 10)]⟩ :
      MemoryCache ℕ).get (10 + 61) "b").2).cache "b" = none := by
  have hset : MemoryCache.set (⟨1, [("a", (0, 100))], [("a", 0)]⟩ : MemoryCache ℕ)
      10 "b" 5 60 = some (⟨1, [("b", (5, 70))], [("b", 10)]⟩ : MemoryCache ℕ) := by
    norm_num [MemoryCache.set, MemoryCache.evict_expired, MemoryCache.evict_lru_fuel,
      alArgmin, alRemove, alSet, alGet, List.filter]
  have h30 := C3_cache_set_get (⟨1, [("a", (0, 100))], [("a", 0)]⟩ : MemoryCache ℕ)
    10 "b" 5 60 30 (⟨1, [("b", (5, 70))], [("b", 10)]⟩ : MemoryCache ℕ)
    (by decide) (by decide) (by norm_num)
  have h61 := C3_cache_set_get (⟨1, [("a", (0, 100))], [("a", 0)]⟩ : MemoryCache ℕ)
    10 "b" 5 60 61 (⟨1, [("b", (5, 70))], [("b", 10)]⟩ : MemoryCache ℕ)
    (by decide) (by decide) (by norm_num)
  refine ⟨h30.1, (h30.2 hset).1 (by norm_num) (by norm_num), ?_, ?_⟩
  · exact ((h61.2 hset).2 (by norm_num)).1
  · exact ((h61.2 hset).2 (by norm_num)).2

/-- C5 (amended): a well-formed `MemoryCache` with `max_size = M ≥ 1`
holding `M` entries, none expired at `now` (so the sweep removes nothing),
receiving `set` of a fresh key: exactly one entry is evicted — the first
key whose recorded access time is minimal among all present keys — and
the new entry is appended; that is, `set` returns precisely the state with
that key removed from both dicts and the new binding appended. The
`M ≥ 1` hypothesis is forced: with `max_size = 0` the eviction loop raises
`ValueError` out of `min` on the emptied dict instead of evicting. -/
theorem C5_lru_eviction {α : Type} [DecidableEq α] (c : MemoryCache α)
    (now : ℚ) (key : String) (v : α) (ttl : ℚ)
    (hwf : c.WF) (hfull : c.cache.length = c.max_size) (hms : 1 ≤ c.max_size)
    (hfresh : ∀ p ∈ c.cache, now ≤ p.2.2)
    (hnew : key ∉ alKeys c.cache) :
    ∃ (lru : String) (t : ℚ),
      alArgmin c.access_times = some (lru, t) ∧ lru ∈ alKeys c.cache ∧
      (∀ p ∈ c.access_times, t ≤ p.2) ∧
      c.set now key v ttl =
        some ⟨c.max_size, alRemove c.cache lru ++ [(key, (v, now + ttl))],
              alRemove c.access_times lru ++ [(key, now)]⟩ := by
  obtain ⟨h1, h2, h3, h4⟩ := hwf
  have hee := evict_expired_of_fresh c now hfresh
  have hcne : c.cache ≠ [] := by
    intro h0
    rw [h0] at hfull
    simp at hfull
    omega
  have hane : c.access_times ≠ [] := by
    intro h0
    obtain ⟨p, hp⟩ := List.exists_mem_of_ne_nil _ hcne
    have hmm := h3 p.1 (List.mem_map_of_mem _ hp)
    rw [h0] at hmm
    simp [alKeys] at hmm
  obtain ⟨⟨lru, t⟩, halg⟩ := Option.isSome_iff_exists.mp (alArgmin_isSome hane)
  have hlrukeys : lru ∈ alKeys c.access_times :=
    List.mem_map_of_mem _ (alArgmin_mem halg)
  have hlrucache := h4 lru hlrukeys
  refine ⟨lru, t, halg, hlrucache, fun p hp => alArgmin_min halg p hp, ?_⟩
  have hrl := length_alRemove hlrucache
  have hkc : key ∉ alKeys (alRemove c.cache lru) := fun hmm =>
    hnew ((alKeys_sublist_of_alRemove _ _).subset hmm)
  have hka : key ∉ alKeys (alRemove c.access_times lru) := by
    intro hmm
    exact hnew (h4 key ((alKeys_sublist_of_alRemove _ _).subset hmm))
  have hstep2 : MemoryCache.evict_lru_fuel ((alRemove c.cache lru).length + 1)
      ({ c with cache := alRemove c.cache lru,
                access_times := alRemove c.access_times lru } : MemoryCache α) =
      some { c with cache := alRemove c.cache lru,
                    access_times := alRemove c.access_times lru } := by
    simp only [MemoryCache.evict_lru_fuel]
    rw [if_neg (by omega)]
  have hstep1 : MemoryCache.evict_lru_fuel (c.cache.length + 1) c =
      some { c with cache := alRemove c.cache lru,
                    access_times := alRemove c.access_times lru } := by
    simp only [MemoryCache.evict_lru_fuel]
    rw [if_pos (by omega), halg]
    rw [show c.cache.length = (alRemove c.cache lru).length + 1 from by omega]
    exact hstep2
  simp only [MemoryCache.set, hee, hstep1]
  rw [show alSet (alRemove c.cache lru) key (v, now + ttl) =
      alRemove c.cache lru ++ [(key, (v, now + ttl))] from alSet_of_notMem _ hkc]
  rw [show alSet (alRemove c.access_times lru) key now =
      alRemove c.access_times lru ++ [(key, now)] from alSet_of_notMem _ hka]

/-- C5 counterexample: the claim quantifies over every `M`; with
`M = max_size = 0` and the (empty) cache holding `M` entries, inserting a
fresh key does not evict anything — the eviction loop raises `ValueError`
out of `min` on the empty access-time dict, so `set` fails (modelled as
`none`) and no entry is inserted at all. -/
theorem C5_counterexample :
    MemoryCache.set (⟨0, [], []⟩ : MemoryCache Bool) 3 "a" true 7 = none := rfl

/-- C5 witness: a two-slot cache at capacity with access times
`a ↦ 5, b ↦ 3`; inserting `"c"` at time 10 evicts exactly `"b"` (the
oldest access time) and appends the new entry. -/
theorem C5_lru_eviction_witness :
    MemoryCache.set
        (⟨2, [("a", (0, 100)), ("b", (1, 100))], [("a", 5), ("b", 3)]⟩ :
          MemoryCache ℕ) 10 "c" 7 60 =
      some (⟨2, [("a", (0, 100)), ("c", (7, 70))], [("a", 5), ("c", 10)]⟩ :
        MemoryCache ℕ) := by
  obtain ⟨lru, t, halg, hmem, hmin, hset⟩ := C5_lru_eviction
    (⟨2, [("a", (0, 100)), ("b", (1, 100))], [("a", 5), ("b", 3)]⟩ : MemoryCache ℕ)
    10 "c" 7 60 (by decide) (by decide) (by decide) (by norm_num) (by decide)
  have halg2 : alArgmin [("a", (5:ℚ)), ("b", 3)] = some ("b", 3) := by
    norm_num [alArgmin]
  rw [halg2] at halg
  injection halg with halg
  have hlru : lru = "b" := congrArg Prod.fst halg.symm
  have ht : t = 3 := congrArg Prod.snd halg.symm
  subst hlru
  rw [hset]
  norm_num [alRemove]
  constructor
  · rw [if_neg (by decide : ¬ ("a" : String) = "b")]
    rfl
  · rw [if_neg (by decide : ¬ ("a" : String) = "b")]
    rfl
